import Mathlib

/-!  Verification of the IDB-to-docket merge pipeline of
     `cl/recap/management/commands/merge_idb_into_dockets.py`.

     Python strings are modelled as lists of characters (Python indexes and
     slices by code point), the document store as lists of rows, Celery
     dispatches as explicit `Dispatch` values, and a raised `KeyError` as
     `Except.error`.  The external `juriscraper` helper `harmonize` and the
     similarity measure inside `cl.lib.string_diff.find_best_match` are
     opaque function parameters. -/

abbrev Str := List Char

/-- ASCII case-folding of a Python string (`str.lower`), character by
    character. -/
def lowerStr (s : Str) : Str := s.map Char.toLower

/-- The four-character separator `" v. "` used throughout the command. -/
def vsep : Str := [' ', 'v', '.', ' ']

/-- Python `s.split(" v. ")`: split on non-overlapping occurrences of the
    separator, scanning left to right; always returns at least one part. -/
def splitOnVs : Str → List Str
  | ' ' :: 'v' :: '.' :: ' ' :: rest => [] :: splitOnVs rest
  | c :: rest =>
    match splitOnVs rest with
    | [] => [[c]]
    | p :: ps => (c :: p) :: ps
  | [] => [[]]

/-- Test for `pat` being an initial run of `s`. -/
def leadsWith : Str → Str → Bool
  | [], _ => true
  | _ :: _, [] => false
  | p :: ps, c :: cs => p == c && leadsWith ps cs

/-- Test for `pat` occurring contiguously inside `s` (Python `pat in s`). -/
def hasSubstr : Str → Str → Bool
  | [], pat => leadsWith pat []
  | c :: cs, pat => leadsWith pat (c :: cs) || hasSubstr cs pat

/-- Django `field__icontains=pat`: case-insensitive containment. -/
def icontains (field pat : Str) : Bool := hasSubstr (lowerStr field) (lowerStr pat)

/-- An `FjcIntegratedDatabase` row (`cl.recap.models`): the fields the
    command reads. -/
structure FjcIdbRow where
  pk : ℕ
  plaintiff : Str
  defendant : Str
  docket_number : Str
  district : Str
  dataset_source : ℕ
deriving DecidableEq

/-- A `Docket` row (`cl.search.models`): the fields the command reads. -/
structure Docket where
  pk : ℕ
  court : Str
  docket_number : Str
  docket_number_core : Str
  case_name : Str
  idb_data : Option ℕ
  pacer_case_id : Option Str
deriving DecidableEq, Inhabited

/-- Modelled from the spec: `CV_2017` (from `cl.recap.constants`, not among
    the provided sources) tags the civil-2017 dataset version; only equality
    tests against it matter here, so its numeric value is arbitrary. -/
def CV_2017 : ℕ := 2017

/-- Result record of `find_best_match`. -/
structure BestMatch where
  ratio : ℚ
  match_index : ℕ
  match_str : Str

/-- First maximal entry of a score list together with its index (`none` on
    the empty list). -/
def bestPair : List ℚ → Option (ℕ × ℚ)
  | [] => none
  | x :: xs =>
    match bestPair xs with
    | none => some (0, x)
    | some (j, m) => if x < m then some (j + 1, m) else some (0, x)

/-- Maximum of a list of ratios (`none` on the empty list). -/
def listMax : List ℚ → Option ℚ
  | [] => none
  | x :: xs =>
    match listMax xs with
    | none => some x
    | some m => some (max x m)

/-- Index selected by `find_best_match`: the first maximal index of the
    score list (0 on the empty list). -/
def firstMaxIdx (l : List ℚ) : ℕ :=
  match bestPair l with
  | none => 0
  | some p => p.1

/-- Modelled from the spec: `find_best_match` (from `cl.lib.string_diff`,
    not among the provided sources) scores the target against each
    candidate — the similarity measure itself is the explicit parameter
    `rf` — and returns the maximum-ratio candidate with its index and
    ratio; ties go to the first maximal index, and with
    `case_sensitive := false` both sides are case-folded before scoring. -/
def find_best_match (rf : Str → Str → ℚ) (candidates : List Str)
    (target : Str) (case_sensitive : Bool) : BestMatch :=
  let prep : Str → Str := fun s => cond case_sensitive s (lowerStr s)
  let scores := candidates.map fun c => rf (prep c) (prep target)
  let i := firstMaxIdx scores
  { ratio := scores.getD i 0, match_index := i, match_str := candidates.getD i [] }

/-- Per-candidate case-name normalization from `do_heuristic_match` (source
    lines 38–48): harmonize, split the case-folded result on `" v. "`, and
    for exactly two parts truncate each side to 30 characters and rejoin;
    `harmonize` (external `juriscraper` library) is an opaque parameter. -/
def normalizeCaseName (harmonize : Str → Str) (raw : Str) : Str :=
  let case_name := harmonize raw
  let parts := splitOnVs (lowerStr case_name)
  if parts.length = 1 then case_name
  else if parts.length = 2 then
    (parts.getD 0 []).take 30 ++ vsep ++ (parts.getD 1 []).take 30
  else case_name

/-- Combined IDB case name (source lines 49–51): `"{plaintiff} v. {defendant}"`,
    harmonized — and nothing else. -/
def idbTargetName (harmonize : Str → Str) (row : FjcIdbRow) : Str :=
  harmonize (row.plaintiff ++ vsep ++ row.defendant)

/-- Source `do_heuristic_match` (lines 30–67). -/
def do_heuristic_match (rf : Str → Str → ℚ) (harmonize : Str → Str)
    (idb_row : FjcIdbRow) (ds : List Docket) : Option Docket :=
  let case_names := ds.map fun d => normalizeCaseName harmonize d.case_name
  let results := find_best_match rf case_names (idbTargetName harmonize idb_row) false
  if (65 : ℚ) / 100 < results.ratio then some (ds.getD results.match_index default)
  else none

/-- The score list `find_best_match` computes inside `do_heuristic_match`. -/
def heuristicScores (rf : Str → Str → ℚ) (harmonize : Str → Str)
    (idb_row : FjcIdbRow) (ds : List Docket) : List ℚ :=
  (ds.map fun d => normalizeCaseName harmonize d.case_name).map
    fun c => rf (lowerStr c) (lowerStr (idbTargetName harmonize idb_row))

/-- Candidate query of `join_fjc_with_dockets` (source lines 130–139): the
    document store is a list, the court+docket-number filter is an equality
    test, and each `.exclude(...__icontains=...)` is a negated
    case-insensitive containment test. -/
def candidatesFor (dockets : List Docket) (idb_row : FjcIdbRow) : List Docket :=
  dockets.filter fun d =>
    d.docket_number_core == idb_row.docket_number && d.court == idb_row.district
      && !(icontains d.docket_number ['c', 'r'])
      && !(icontains d.case_name ("sealed".toList))
      && !(icontains d.case_name ("suppressed".toList))
      && !(icontains d.case_name ("search warrant".toList))

/-- One dispatched unit of work: `apply_async` calls carry the target queue
    (fire-and-forget), direct calls run synchronously in the driver. -/
inductive Dispatch where
  | asyncCreate (idb_pk : ℕ) (queue : Str)
  | asyncMerge (docket_pk idb_pk : ℕ) (queue : Str)
  | syncMerge (docket_pk idb_pk : ℕ)
  | syncCreate (idb_pk : ℕ)
deriving DecidableEq

/-- Test for a dispatch being asynchronous (an `apply_async` call). -/
def Dispatch.isAsync : Dispatch → Bool
  | .asyncCreate _ _ => true
  | .asyncMerge _ _ _ => true
  | .syncMerge _ _ => false
  | .syncCreate _ => false

/-- Per-record body of the `join_fjc_with_dockets` loop (source lines
    130–164): zero candidates dispatch an asynchronous create, exactly one
    an asynchronous merge of that candidate, and two or more run the
    heuristic and call the chosen task synchronously. -/
def processRecord (rf : Str → Str → ℚ) (harmonize : Str → Str) (queue : Str)
    (dockets : List Docket) (idb_row : FjcIdbRow) : Dispatch :=
  let ds := candidatesFor dockets idb_row
  if ds.length = 0 then .asyncCreate idb_row.pk queue
  else if ds.length = 1 then .asyncMerge (ds.getD 0 default).pk idb_row.pk queue
  else
    match do_heuristic_match rf harmonize idb_row ds with
    | some d => .syncMerge d.pk idb_row.pk
    | none => .syncCreate idb_row.pk

/-- Windowing loop of `join_fjc_with_dockets` (source lines 122–128):
    positions below `offset` are skipped, the loop breaks at the first
    position `i` with `i ≥ limit > 0` (Python `i >= options["limit"] > 0`),
    and every processed record yields exactly one dispatch, recorded
    together with its position. -/
def driverLoop (rf : Str → Str → ℚ) (harmonize : Str → Str) (queue : Str)
    (dockets : List Docket) (offset limit : ℕ) :
    ℕ → List FjcIdbRow → List (ℕ × Dispatch)
  | _, [] => []
  | i, row :: rest =>
    if i < offset then driverLoop rf harmonize queue dockets offset limit (i + 1) rest
    else if limit ≤ i ∧ 0 < limit then []
    else (i, processRecord rf harmonize queue dockets row)
        :: driverLoop rf harmonize queue dockets offset limit (i + 1) rest

instance : DecidableRel (fun a b : FjcIdbRow => a.pk ≤ b.pk) :=
  fun a b => Nat.decLe a.pk b.pk

/-- Stream construction and loop of `join_fjc_with_dockets` (source lines
    112–164), after the court filter has been read from the options:
    restrict to `CV_2017` rows, apply the optional court filter, order by
    primary key, and run the windowed loop from position 0. -/
def joinCore (rf : Str → Str → ℚ) (harmonize : Str → Str) (dockets : List Docket)
    (queue : Str) (court_id : Option Str) (offset limit : ℕ)
    (idb_all : List FjcIdbRow) : List (ℕ × Dispatch) :=
  let rows0 := idb_all.filter fun r => r.dataset_source == CV_2017
  let rows1 := match court_id with
    | none => rows0
    | some c => rows0.filter fun r => r.district == c
  let rows := rows1.insertionSort fun a b => a.pk ≤ b.pk
  driverLoop rf harmonize queue dockets offset limit 0 rows

/-- One parsed CLI option value. -/
inductive OptVal where
  | strv (s : Str)
  | natv (n : ℕ)
  | boolv (b : Bool)
  | nonev
deriving DecidableEq

/-- The option values parsed for the four arguments `Command.add_arguments`
    declares (source lines 77–102). -/
structure ParsedOptions where
  queue : Str
  offset : ℕ
  limit : ℕ
  task : Str
deriving DecidableEq

/-- The `options` dict `Command.handle` receives: one key per argument
    declared in `add_arguments` (source lines 77–102) plus the options
    Django's `BaseCommand` always defines on every command; no court
    option is ever declared. -/
def optionsDict (o : ParsedOptions) : List (Str × OptVal) :=
  [(("queue".toList), OptVal.strv o.queue),
   (("offset".toList), OptVal.natv o.offset),
   (("limit".toList), OptVal.natv o.limit),
   (("task".toList), OptVal.strv o.task),
   (("verbosity".toList), OptVal.natv 1),
   (("settings".toList), OptVal.nonev),
   (("pythonpath".toList), OptVal.nonev),
   (("traceback".toList), OptVal.boolv false),
   (("no_color".toList), OptVal.boolv false),
   (("force_color".toList), OptVal.boolv false),
   (("skip_checks".toList), OptVal.boolv false)]

/-- Python dict subscription `options[key]`: a missing key raises
    `KeyError(key)`, modelled as `Except.error key`. -/
def getOpt (dict : List (Str × OptVal)) (key : Str) : Except Str OptVal :=
  match dict.find? fun kv => kv.fst == key with
  | some kv => .ok kv.snd
  | none => .error key

/-- Source `Command.join_fjc_with_dockets` (lines 111–164) as invoked with
    the parsed options: the read of `options["court_id"]` on line 116
    precedes everything else observable here, and its Python truthiness
    decides whether the district filter applies. -/
def join_fjc_with_dockets (rf : Str → Str → ℚ) (harmonize : Str → Str)
    (dockets : List Docket) (idb_all : List FjcIdbRow) (o : ParsedOptions) :
    Except Str (List (ℕ × Dispatch)) := do
  let cid ← getOpt (optionsDict o) ("court_id".toList)
  let court : Option Str := match cid with
    | OptVal.strv s => if s == [] then none else some s
    | _ => none
  pure (joinCore rf harmonize dockets o.queue court o.offset o.limit idb_all)

/-- One processed item of `update_any_missing_pacer_case_ids`: its stream
    position, whether a fresh session was created and logged in before the
    dispatch (source lines 185–191), and the docket the chained job
    targets. -/
structure UpdateEvent where
  pos : ℕ
  reauth : Bool
  docket_pk : ℕ
deriving DecidableEq

/-- Windowing loop of `update_any_missing_pacer_case_ids` (source lines
    179–205): the same offset/limit window as the merge loop, with a forced
    session re-authentication exactly when the position is a multiple
    of 5000. -/
def updateLoop (offset limit : ℕ) : ℕ → List Docket → List UpdateEvent
  | _, [] => []
  | i, d :: rest =>
    if i < offset then updateLoop offset limit (i + 1) rest
    else if limit ≤ i ∧ 0 < limit then []
    else { pos := i, reauth := i % 5000 == 0, docket_pk := d.pk }
        :: updateLoop offset limit (i + 1) rest

/-- Source `Command.update_any_missing_pacer_case_ids` (lines 166–205):
    stream the dockets that have IDB data but no PACER case id and run the
    windowed update loop over them from position 0. -/
def update_any_missing_pacer_case_ids (dockets : List Docket)
    (offset limit : ℕ) : List UpdateEvent :=
  updateLoop offset limit 0
    (dockets.filter fun d => d.idb_data.isSome && d.pacer_case_id.isNone)

/-- Outcome of one `Command.handle` invocation. -/
inductive RunOutcome where
  | merged (out : List (ℕ × Dispatch))
  | updated (out : List UpdateEvent)
  | noOp
deriving DecidableEq

/-- Source `Command.handle` (lines 104–109): dispatch on the task string;
    any other task string falls through both branches and does nothing. -/
def handle (rf : Str → Str → ℚ) (harmonize : Str → Str) (dockets : List Docket)
    (idb_all : List FjcIdbRow) (o : ParsedOptions) : Except Str RunOutcome :=
  if o.task == ("merge_and_create".toList) then
    (join_fjc_with_dockets rf harmonize dockets idb_all o).map RunOutcome.merged
  else if o.task == ("update_case_ids".toList) then
    .ok (.updated (update_any_missing_pacer_case_ids dockets o.offset o.limit))
  else .ok .noOp


theorem bestPair_eq_none {l : List ℚ} : bestPair l = none ↔ l = [] := by
  cases l with
  | nil => simp [bestPair]
  | cons x xs =>
    simp only [bestPair]
    cases h : bestPair xs with
    | none => simp
    | some p =>
      obtain ⟨j, m⟩ := p
      by_cases hx : x < m <;> simp [hx]

theorem listMax_eq_none {l : List ℚ} : listMax l = none ↔ l = [] := by
  cases l with
  | nil => simp [listMax]
  | cons x xs =>
    simp only [listMax]
    cases h : listMax xs <;> simp

theorem bestPair_exists {l : List ℚ} (h : l ≠ []) : ∃ p, bestPair l = some p := by
  cases hb : bestPair l with
  | none => exact absurd (bestPair_eq_none.mp hb) h
  | some p => exact ⟨p, rfl⟩

theorem bestPair_listMax {l : List ℚ} {i : ℕ} {v : ℚ}
    (h : bestPair l = some (i, v)) : listMax l = some v := by
  induction l generalizing i v with
  | nil => simp [bestPair] at h
  | cons x xs ih =>
    simp only [bestPair] at h
    simp only [listMax]
    cases hb : bestPair xs with
    | none =>
      rw [hb] at h
      rw [listMax_eq_none.mpr (bestPair_eq_none.mp hb)]
      simp at h
      simp [h]
    | some p =>
      obtain ⟨j, m⟩ := p
      rw [hb] at h
      rw [ih hb]
      by_cases hx : x < m
      · simp [hx] at h
        obtain ⟨hi, hv⟩ := h
        subst hv
        simp [max_eq_right (le_of_lt hx)]
      · simp [hx] at h
        obtain ⟨hi, hv⟩ := h
        subst hv
        simp [max_eq_left (not_lt.mp hx)]

theorem bestPair_bounds {l : List ℚ} {i : ℕ} {v : ℚ}
    (h : bestPair l = some (i, v)) :
    i < l.length ∧ l.getD i 0 = v ∧ ∀ j, j < i → l.getD j 0 < v := by
  induction l generalizing i v with
  | nil => simp [bestPair] at h
  | cons x xs ih =>
    simp only [bestPair] at h
    cases hb : bestPair xs with
    | none =>
      rw [hb] at h
      simp at h
      obtain ⟨hi, hv⟩ := h
      subst hi
      subst hv
      exact ⟨Nat.succ_pos _, rfl, by omega⟩
    | some p =>
      obtain ⟨j, m⟩ := p
      rw [hb] at h
      obtain ⟨hj, hget, hlt⟩ := ih hb
      by_cases hx : x < m
      · simp [hx] at h
        obtain ⟨hi, hv⟩ := h
        subst hi
        subst hv
        refine ⟨by simpa using hj, by simpa using hget, ?_⟩
        intro k hk
        cases k with
        | zero => simpa using hx
        | succ k => simpa using hlt k (by omega)
      · simp [hx] at h
        obtain ⟨hi, hv⟩ := h
        subst hi
        subst hv
        exact ⟨Nat.succ_pos _, rfl, by omega⟩

theorem heuristicScores_length (rf : Str → Str → ℚ) (harmonize : Str → Str)
    (idb_row : FjcIdbRow) (ds : List Docket) :
    (heuristicScores rf harmonize idb_row ds).length = ds.length := by
  simp [heuristicScores]

theorem firstMaxIdx_lt_length {l : List ℚ} (h : l ≠ []) : firstMaxIdx l < l.length := by
  obtain ⟨⟨i, v⟩, hb⟩ := bestPair_exists h
  have hi : firstMaxIdx l = i := by simp [firstMaxIdx, hb]
  rw [hi]
  exact (bestPair_bounds hb).1

theorem getD_firstMaxIdx {l : List ℚ} {m : ℚ} (hm : listMax l = some m) :
    l.getD (firstMaxIdx l) 0 = m := by
  have hne : l ≠ [] := by
    intro he
    rw [listMax_eq_none.mpr he] at hm
    cases hm
  obtain ⟨⟨i, v⟩, hb⟩ := bestPair_exists hne
  have hi : firstMaxIdx l = i := by simp [firstMaxIdx, hb]
  have hv : listMax l = some v := bestPair_listMax hb
  rw [hm] at hv
  have hmv : m = v := by injection hv
  rw [hi, (bestPair_bounds hb).2.1, hmv]

theorem getD_lt_of_lt_firstMaxIdx {l : List ℚ} {m : ℚ} (hm : listMax l = some m)
    {j : ℕ} (hj : j < firstMaxIdx l) : l.getD j 0 < m := by
  have hne : l ≠ [] := by
    intro he
    rw [listMax_eq_none.mpr he] at hm
    cases hm
  obtain ⟨⟨i, v⟩, hb⟩ := bestPair_exists hne
  have hi : firstMaxIdx l = i := by simp [firstMaxIdx, hb]
  have hv : listMax l = some v := bestPair_listMax hb
  rw [hm] at hv
  have hmv : m = v := by injection hv
  rw [hmv]
  exact (bestPair_bounds hb).2.2 j (hi ▸ hj)

theorem do_heuristic_match_eq (rf : Str → Str → ℚ) (harmonize : Str → Str)
    (idb_row : FjcIdbRow) (ds : List Docket) :
    do_heuristic_match rf harmonize idb_row ds =
      if (65 : ℚ) / 100 <
          (heuristicScores rf harmonize idb_row ds).getD
            (firstMaxIdx (heuristicScores rf harmonize idb_row ds)) 0 then
        some (ds.getD (firstMaxIdx (heuristicScores rf harmonize idb_row ds)) default)
      else none := rfl

theorem do_heuristic_match_none_of_le {rf : Str → Str → ℚ} {harmonize : Str → Str}
    {idb_row : FjcIdbRow} {ds : List Docket} {m : ℚ}
    (hmax : listMax (heuristicScores rf harmonize idb_row ds) = some m)
    (hle : m ≤ (65 : ℚ) / 100) :
    do_heuristic_match rf harmonize idb_row ds = none := by
  rw [do_heuristic_match_eq, getD_firstMaxIdx hmax]
  exact if_neg (not_lt.mpr hle)

theorem processRecord_of_two (rf : Str → Str → ℚ) (harmonize : Str → Str)
    (queue : Str) (dockets : List Docket) (row : FjcIdbRow)
    (h2 : 2 ≤ (candidatesFor dockets row).length) :
    processRecord rf harmonize queue dockets row =
      match do_heuristic_match rf harmonize row (candidatesFor dockets row) with
      | some d => Dispatch.syncMerge d.pk row.pk
      | none => Dispatch.syncCreate row.pk := by
  simp only [processRecord]
  rw [if_neg (by omega), if_neg (by omega)]

theorem leadsWith_iff {pat s : Str} : leadsWith pat s = true ↔ ∃ t, s = pat ++ t := by
  induction pat generalizing s with
  | nil => simp [leadsWith]
  | cons p ps ih =>
    cases s with
    | nil => simp [leadsWith]
    | cons c cs =>
      simp only [leadsWith, Bool.and_eq_true, beq_iff_eq, ih, List.cons_append,
        List.cons.injEq]
      constructor
      · rintro ⟨hpc, t, ht⟩
        exact ⟨t, hpc.symm, ht⟩
      · rintro ⟨t, hcp, ht⟩
        exact ⟨hcp.symm, t, ht⟩

theorem hasSubstr_iff {s pat : Str} :
    hasSubstr s pat = true ↔ ∃ l1 l2, s = l1 ++ pat ++ l2 := by
  induction s with
  | nil =>
    simp only [hasSubstr, leadsWith_iff]
    constructor
    · rintro ⟨t, ht⟩
      rcases List.append_eq_nil.mp ht.symm with ⟨hp, hT⟩
      exact ⟨[], [], by simp [hp]⟩
    · rintro ⟨l1, l2, h⟩
      rcases List.append_eq_nil.mp (List.append_eq_nil.mp h.symm).1 with ⟨h1, hp⟩
      exact ⟨[], by simp [hp]⟩
  | cons c cs ih =>
    simp only [hasSubstr, Bool.or_eq_true, leadsWith_iff, ih]
    constructor
    · rintro (⟨t, ht⟩ | ⟨l1, l2, h⟩)
      · exact ⟨[], t, by simpa using ht⟩
      · exact ⟨c :: l1, l2, by simp [h]⟩
    · rintro ⟨l1, l2, h⟩
      cases l1 with
      | nil => exact Or.inl ⟨l2, by simpa using h⟩
      | cons a l1 =>
        simp only [List.cons_append, List.cons.injEq] at h
        exact Or.inr ⟨l1, l2, h.2⟩

theorem normalize_len_one (harmonize : Str → Str) (raw : Str)
    (h1 : (splitOnVs (lowerStr (harmonize raw))).length = 1) :
    normalizeCaseName harmonize raw = harmonize raw := by
  simp [normalizeCaseName, h1]

theorem normalize_len_two (harmonize : Str → Str) (raw : Str)
    (h2 : (splitOnVs (lowerStr (harmonize raw))).length = 2) :
    normalizeCaseName harmonize raw =
      ((splitOnVs (lowerStr (harmonize raw))).getD 0 []).take 30 ++ vsep
        ++ ((splitOnVs (lowerStr (harmonize raw))).getD 1 []).take 30 := by
  simp [normalizeCaseName, h2]

theorem normalize_len_other (harmonize : Str → Str) (raw : Str)
    (h1 : (splitOnVs (lowerStr (harmonize raw))).length ≠ 1)
    (h2 : (splitOnVs (lowerStr (harmonize raw))).length ≠ 2) :
    normalizeCaseName harmonize raw = harmonize raw := by
  simp [normalizeCaseName, h1, h2]

theorem driverLoop_map_fst (rf : Str → Str → ℚ) (harmonize : Str → Str)
    (queue : Str) (dockets : List Docket) (offset limit : ℕ) (hl : 0 < limit) :
    ∀ (rows : List FjcIdbRow) (i : ℕ),
      (driverLoop rf harmonize queue dockets offset limit i rows).map Prod.fst
        = List.range' (max i offset) (min limit (i + rows.length) - max i offset) := by
  intro rows
  induction rows with
  | nil =>
    intro i
    have h0 : min limit (i + ([] : List FjcIdbRow).length) - max i offset = 0 := by
      simp only [List.length_nil]
      omega
    rw [h0]
    rfl
  | cons row rest ih =>
    intro i
    simp only [driverLoop]
    by_cases h1 : i < offset
    · rw [if_pos h1, ih (i + 1)]
      have e1 : max (i + 1) offset = max i offset := by omega
      have e2 : min limit (i + 1 + rest.length) = min limit (i + (row :: rest).length) := by
        simp only [List.length_cons]
        omega
      rw [e1, e2]
    · rw [if_neg h1]
      by_cases h2 : limit ≤ i ∧ 0 < limit
      · rw [if_pos h2]
        have h0 : min limit (i + (row :: rest).length) - max i offset = 0 := by
          simp only [List.length_cons]
          omega
        rw [h0]
        rfl
      · rw [if_neg h2]
        have hi : i < limit := by omega
        simp only [List.map_cons]
        rw [ih (i + 1)]
        have e1 : max (i + 1) offset = i + 1 := by omega
        have e2 : max i offset = i := by omega
        have e3 : min limit (i + (row :: rest).length) - i
            = (min limit (i + 1 + rest.length) - (i + 1)) + 1 := by
          simp only [List.length_cons]
          omega
        rw [e1, e2, e3, List.range'_succ]

theorem updateLoop_reauth (offset limit : ℕ) :
    ∀ (rows : List Docket) (i : ℕ) (e : UpdateEvent),
      e ∈ updateLoop offset limit i rows → (e.reauth = true ↔ e.pos % 5000 = 0) := by
  intro rows
  induction rows with
  | nil =>
    intro i e he
    simp [updateLoop] at he
  | cons d rest ih =>
    intro i e he
    simp only [updateLoop] at he
    by_cases h1 : i < offset
    · rw [if_pos h1] at he
      exact ih _ _ he
    · rw [if_neg h1] at he
      by_cases h2 : limit ≤ i ∧ 0 < limit
      · rw [if_pos h2] at he
        simp at he
      · rw [if_neg h2] at he
        rcases List.mem_cons.mp he with hh | ht
        · subst hh
          simp
        · exact ih _ _ ht

/-- C1 (amended): a `merge_and_create` run over a stream of `n` CV_2017
    records in ascending primary-key order with `offset = o` and
    `limit = l > 0` processes exactly the records at 0-indexed positions
    `o` through `min l n - 1` — the limit is an absolute position cap, not
    additive with the offset, so nothing is processed when `l ≤ o` — and
    dispatches exactly one job per processed record. -/
theorem claim_C1 (rf : Str → Str → ℚ) (harmonize : Str → Str)
    (dockets : List Docket) (queue : Str) (offset limit : ℕ)
    (rows : List FjcIdbRow) (hl : 0 < limit)
    (hsrc : ∀ r ∈ rows, r.dataset_source = CV_2017)
    (hsort : rows.Pairwise fun a b => a.pk ≤ b.pk) :
    (joinCore rf harmonize dockets queue none offset limit rows).map Prod.fst
        = List.range' offset (min limit rows.length - offset)
    ∧ (joinCore rf harmonize dockets queue none offset limit rows).length
        = min limit rows.length - offset := by
  have hj : joinCore rf harmonize dockets queue none offset limit rows
      = driverLoop rf harmonize queue dockets offset limit 0 rows := by
    simp only [joinCore]
    have hf : rows.filter (fun r => r.dataset_source == CV_2017) = rows :=
      List.filter_eq_self.mpr fun r hr => by simpa using hsrc r hr
    rw [hf, List.Sorted.insertionSort_eq hsort]
  have hmap := driverLoop_map_fst rf harmonize queue dockets offset limit hl rows 0
  have e1 : max 0 offset = offset := by omega
  have e2 : 0 + rows.length = rows.length := by omega
  rw [e1, e2] at hmap
  refine ⟨by rw [hj, hmap], ?_⟩
  have hlen := congrArg List.length hmap
  simpa [hj] using hlen

/-- Concrete instance for C1: three sorted CV_2017 rows. -/
def rowsC1 : List FjcIdbRow :=
  [⟨0, [], [], [], [], CV_2017⟩, ⟨1, [], [], [], [], CV_2017⟩,
   ⟨2, [], [], [], [], CV_2017⟩]

theorem claim_C1_witness :
    (joinCore (fun _ _ => (0 : ℚ)) id [] [] none 1 2 rowsC1).map Prod.fst
        = List.range' 1 (min 2 rowsC1.length - 1)
    ∧ (joinCore (fun _ _ => (0 : ℚ)) id [] [] none 1 2 rowsC1).length
        = min 2 rowsC1.length - 1 :=
  claim_C1 (fun _ _ => (0 : ℚ)) id [] [] 1 2 rowsC1 (by decide) (by decide)
    (by decide)

/-- Stream of 100 sorted CV_2017 rows, as in the claimed example. -/
def rowsC1cex : List FjcIdbRow :=
  (List.range 100).map fun k => ⟨k, [], [], [], [], CV_2017⟩

/-- C1 counterexample: over 100 records, `offset = 10, limit = 5` issues no
    dispatch at all — the claim demands exactly 5 dispatches, at positions
    10 through 14. -/
theorem claim_C1_cex :
    joinCore (fun _ _ => (0 : ℚ)) id [] [] none 10 5 rowsC1cex = [] := by decide

/-- C2: with no candidate the driver dispatches an asynchronous create for
    the IDB row, and with exactly one candidate an asynchronous merge with
    that candidate, independently of the similarity measure — no scoring is
    performed, so any two measures yield the same dispatch. -/
theorem claim_C2 (rf rf2 : Str → Str → ℚ) (harmonize : Str → Str)
    (queue : Str) (dockets : List Docket) (row : FjcIdbRow) (d : Docket) :
    (candidatesFor dockets row = [] →
        processRecord rf harmonize queue dockets row
          = Dispatch.asyncCreate row.pk queue)
    ∧ (candidatesFor dockets row = [d] →
        processRecord rf harmonize queue dockets row
          = Dispatch.asyncMerge d.pk row.pk queue
        ∧ processRecord rf harmonize queue dockets row
          = processRecord rf2 harmonize queue dockets row) := by
  constructor
  · intro h0
    simp [processRecord, h0]
  · intro h1
    have ha : ∀ rf0 : Str → Str → ℚ, processRecord rf0 harmonize queue dockets row
        = Dispatch.asyncMerge d.pk row.pk queue := by
      intro rf0
      simp [processRecord, h1]
    exact ⟨ha rf, (ha rf).trans (ha rf2).symm⟩

/-- Concrete IDB row for C2. -/
def rowC2 : FjcIdbRow := ⟨3, [], [], ("123".toList), ("ca".toList), CV_2017⟩

/-- Concrete matching docket for C2. -/
def dC2 : Docket :=
  ⟨9, ("ca".toList), ("1:16-at-00123".toList), ("123".toList),
   ("Foo v. Bar".toList), none, none⟩

theorem claim_C2_witness :
    processRecord (fun _ _ => (0 : ℚ)) id [] [] rowC2
        = Dispatch.asyncCreate rowC2.pk []
    ∧ processRecord (fun _ _ => (0 : ℚ)) id [] [dC2] rowC2
        = Dispatch.asyncMerge dC2.pk rowC2.pk []
    ∧ processRecord (fun _ _ => (0 : ℚ)) id [] [dC2] rowC2
        = processRecord (fun _ _ => (1 : ℚ)) id [] [dC2] rowC2 :=
  ⟨(claim_C2 (fun _ _ => 0) (fun _ _ => 1) id [] [] rowC2 dC2).1 (by decide),
   ((claim_C2 (fun _ _ => 0) (fun _ _ => 1) id [] [dC2] rowC2 dC2).2 (by decide)).1,
   ((claim_C2 (fun _ _ => 0) (fun _ _ => 1) id [] [dC2] rowC2 dC2).2 (by decide)).2⟩

/-- C3: with two or more surviving candidates, `do_heuristic_match` returns
    the best-scoring candidate — the candidate at the first maximal score
    index, whose score is the maximum of the score list — exactly when the
    best similarity ratio is strictly greater than 0.65; at a ratio of at
    most 0.65 it returns no match and the driver chooses to create a new
    docket from the external record. -/
theorem claim_C3 (rf : Str → Str → ℚ) (harmonize : Str → Str) (queue : Str)
    (dockets : List Docket) (row : FjcIdbRow) (m : ℚ)
    (h2 : 2 ≤ (candidatesFor dockets row).length)
    (hmax : listMax (heuristicScores rf harmonize row (candidatesFor dockets row))
      = some m) :
    ((65 : ℚ) / 100 < m →
        firstMaxIdx (heuristicScores rf harmonize row (candidatesFor dockets row))
            < (candidatesFor dockets row).length
        ∧ (heuristicScores rf harmonize row (candidatesFor dockets row)).getD
            (firstMaxIdx (heuristicScores rf harmonize row (candidatesFor dockets row)))
            0 = m
        ∧ do_heuristic_match rf harmonize row (candidatesFor dockets row)
            = some ((candidatesFor dockets row).getD
                (firstMaxIdx
                  (heuristicScores rf harmonize row (candidatesFor dockets row)))
                default))
    ∧ (m ≤ (65 : ℚ) / 100 →
        do_heuristic_match rf harmonize row (candidatesFor dockets row) = none
        ∧ processRecord rf harmonize queue dockets row
            = Dispatch.syncCreate row.pk) := by
  have hlen := heuristicScores_length rf harmonize row (candidatesFor dockets row)
  have hne : heuristicScores rf harmonize row (candidatesFor dockets row) ≠ [] := by
    intro he
    rw [he] at hlen
    simp at hlen
    omega
  constructor
  · intro hgt
    refine ⟨?_, getD_firstMaxIdx hmax, ?_⟩
    · have hfi := firstMaxIdx_lt_length hne
      rwa [hlen] at hfi
    · rw [do_heuristic_match_eq, getD_firstMaxIdx hmax, if_pos hgt]
  · intro hle
    have hnone := do_heuristic_match_none_of_le hmax hle
    refine ⟨hnone, ?_⟩
    rw [processRecord_of_two rf harmonize queue dockets row h2, hnone]

/-- Exact-equality similarity measure used in concrete instances. -/
def rfC3 : Str → Str → ℚ := fun a b => if a == b then 1 else 0

/-- Concrete IDB row for C3. -/
def rowC3 : FjcIdbRow :=
  ⟨4, ("Smith".toList), ("Jones".toList), ("123".toList), ("ca".toList), CV_2017⟩

/-- Concrete two-candidate store for C3. -/
def docketsC3 : List Docket :=
  [⟨1, ("ca".toList), ("1:16-at-00123".toList), ("123".toList),
    ("Smith v. Jones".toList), none, none⟩,
   ⟨2, ("ca".toList), ("1:16-at-00124".toList), ("123".toList),
    ("Zzz".toList), none, none⟩]

theorem claim_C3_witness :
    firstMaxIdx (heuristicScores rfC3 id rowC3 (candidatesFor docketsC3 rowC3))
        < (candidatesFor docketsC3 rowC3).length
    ∧ (heuristicScores rfC3 id rowC3 (candidatesFor docketsC3 rowC3)).getD
        (firstMaxIdx (heuristicScores rfC3 id rowC3 (candidatesFor docketsC3 rowC3)))
        0 = 1
    ∧ do_heuristic_match rfC3 id rowC3 (candidatesFor docketsC3 rowC3)
        = some ((candidatesFor docketsC3 rowC3).getD
            (firstMaxIdx (heuristicScores rfC3 id rowC3 (candidatesFor docketsC3 rowC3)))
            default) :=
  (claim_C3 rfC3 id [] docketsC3 rowC3 1 (by decide) (by decide)).1 (by norm_num)

/-- C4: the candidate-name normalizer leaves the harmonized string
    unmodified when the case-folded split on `" v. "` yields one segment,
    truncates each side to at most 30 characters and rejoins the case-folded
    sides around `" v. "` when it yields exactly two, and returns the full
    harmonized string, untouched by truncation, when it yields more than
    two. -/
theorem claim_C4 (harmonize : Str → Str) (raw : Str) :
    ((splitOnVs (lowerStr (harmonize raw))).length = 1 →
        normalizeCaseName harmonize raw = harmonize raw)
    ∧ ((splitOnVs (lowerStr (harmonize raw))).length = 2 →
        normalizeCaseName harmonize raw =
          ((splitOnVs (lowerStr (harmonize raw))).getD 0 []).take 30 ++ vsep
            ++ ((splitOnVs (lowerStr (harmonize raw))).getD 1 []).take 30)
    ∧ (2 < (splitOnVs (lowerStr (harmonize raw))).length →
        normalizeCaseName harmonize raw = harmonize raw) :=
  ⟨normalize_len_one harmonize raw,
   normalize_len_two harmonize raw,
   fun h3 => normalize_len_other harmonize raw (by omega) (by omega)⟩

theorem claim_C4_witness :
    (splitOnVs (lowerStr (id ("Smith v. Jones".toList)))).length = 2
    ∧ normalizeCaseName id ("Smith v. Jones".toList) = ("smith v. jones".toList) := by
  refine ⟨by decide, ?_⟩
  have h := (claim_C4 id ("Smith v. Jones".toList)).2.1 (by decide)
  rw [h]
  decide

/-- Row with a 31-character plaintiff, for the C5 counterexample. -/
def rowC5 : FjcIdbRow := ⟨5, List.replicate 31 'a', ['b'], [], [], CV_2017⟩

/-- C5 counterexample: the target string fed to the scorer is the harmonized
    combined name only, and for this row it differs from the candidate
    normalization of the very same name — the candidate side truncates each
    segment to 30 characters and case-folds, the target side does not. -/
theorem claim_C5_cex :
    idbTargetName id rowC5
      ≠ normalizeCaseName id (rowC5.plaintiff ++ vsep ++ rowC5.defendant) := by
  decide

/-- C5 (amended): the external record's combined name is harmonized but
    never split, truncated or case-folded; it therefore coincides with the
    candidate normalization of the same name exactly when the case-folded
    split does not yield two segments (the truncating branch). -/
theorem claim_C5 (harmonize : Str → Str) (row : FjcIdbRow)
    (hno2 : (splitOnVs (lowerStr
        (harmonize (row.plaintiff ++ vsep ++ row.defendant)))).length ≠ 2) :
    idbTargetName harmonize row
      = normalizeCaseName harmonize (row.plaintiff ++ vsep ++ row.defendant) := by
  by_cases h1 : (splitOnVs (lowerStr
      (harmonize (row.plaintiff ++ vsep ++ row.defendant)))).length = 1
  · exact (normalize_len_one harmonize _ h1).symm
  · exact (normalize_len_other harmonize _ h1 hno2).symm

/-- Row whose combined name splits into three segments, for the C5 witness. -/
def rowC5w : FjcIdbRow := ⟨6, ("a v. b".toList), ['c'], [], [], CV_2017⟩

theorem claim_C5_witness :
    (splitOnVs (lowerStr (id (rowC5w.plaintiff ++ vsep ++ rowC5w.defendant)))).length ≠ 2
    ∧ idbTargetName id rowC5w
        = normalizeCaseName id (rowC5w.plaintiff ++ vsep ++ rowC5w.defendant) :=
  ⟨by decide, claim_C5 id rowC5w (by decide)⟩

/-- C6 (amended): a chosen action is dispatched asynchronously exactly when
    the candidate set has at most one element; with two or more candidates
    the resolved action is executed synchronously whether the heuristic
    resolves to a candidate (direct merge call) or fails (direct create
    call). -/
theorem claim_C6 (rf : Str → Str → ℚ) (harmonize : Str → Str) (queue : Str)
    (dockets : List Docket) (row : FjcIdbRow) :
    (processRecord rf harmonize queue dockets row).isAsync = true
      ↔ (candidatesFor dockets row).length ≤ 1 := by
  by_cases h0 : (candidatesFor dockets row).length = 0
  · simp [processRecord, h0, Dispatch.isAsync]
  · by_cases h1 : (candidatesFor dockets row).length = 1
    · simp [processRecord, h0, h1, Dispatch.isAsync]
    · rw [processRecord_of_two rf harmonize queue dockets row (by omega)]
      cases hm : do_heuristic_match rf harmonize row (candidatesFor dockets row) with
      | none =>
        simp [Dispatch.isAsync]
        omega
      | some d =>
        simp [Dispatch.isAsync]
        omega

/-- Concrete IDB row for the C6 counterexample. -/
def rowC6 : FjcIdbRow :=
  ⟨7, ("Aaa".toList), ("Bbb".toList), ("123".toList), ("ca".toList), CV_2017⟩

/-- Concrete two-candidate store for the C6 counterexample. -/
def docketsC6 : List Docket :=
  [⟨1, ("ca".toList), ("1:16-at-00123".toList), ("123".toList),
    ("Xxx v. Yyy".toList), none, none⟩,
   ⟨2, ("ca".toList), ("1:16-at-00124".toList), ("123".toList),
    ("Qqq v. Rrr".toList), none, none⟩]

/-- C6 counterexample: with two candidates and a failed heuristic the chosen
    create action is executed synchronously by a direct call, not dispatched
    asynchronously as the claim states for this case. -/
theorem claim_C6_cex :
    processRecord (fun _ _ => (0 : ℚ)) id [] docketsC6 rowC6
        = Dispatch.syncCreate 7
    ∧ (processRecord (fun _ _ => (0 : ℚ)) id [] docketsC6 rowC6).isAsync = false := by
  have h2 : 2 ≤ (candidatesFor docketsC6 rowC6).length := by decide
  have hmax : listMax (heuristicScores (fun _ _ => (0 : ℚ)) id rowC6
      (candidatesFor docketsC6 rowC6)) = some 0 := by decide
  have hnone := do_heuristic_match_none_of_le hmax (by norm_num)
  have hpr := processRecord_of_two (fun _ _ => (0 : ℚ)) id [] docketsC6 rowC6 h2
  rw [hnone] at hpr
  constructor
  · rw [hpr]
    rfl
  · rw [hpr]
    rfl

/-- C7: every candidate surviving the query filter is free of the
    criminal-case marker `"cr"` in its docket number and of the
    sealed/suppressed/search-warrant markers in its case name, all
    case-insensitively (`hasSubstr_iff` grounds the containment test as the
    existence of a decomposition around the pattern). -/
theorem claim_C7 (dockets : List Docket) (row : FjcIdbRow) (d : Docket)
    (hd : d ∈ candidatesFor dockets row) :
    icontains d.docket_number ['c', 'r'] = false
    ∧ icontains d.case_name ("sealed".toList) = false
    ∧ icontains d.case_name ("suppressed".toList) = false
    ∧ icontains d.case_name ("search warrant".toList) = false := by
  simp only [candidatesFor] at hd
  obtain ⟨-, hp⟩ := List.mem_filter.mp hd
  simp only [Bool.and_eq_true, Bool.not_eq_true'] at hp
  exact ⟨hp.1.1.1.2, hp.1.1.2, hp.1.2, hp.2⟩

/-- Concrete IDB row for the C7 witness. -/
def rowC7 : FjcIdbRow := ⟨8, [], [], ("123".toList), ("ca".toList), CV_2017⟩

/-- Concrete surviving candidate for the C7 witness. -/
def dC7 : Docket :=
  ⟨3, ("ca".toList), ("1:16-at-00123".toList), ("123".toList),
   ("Foo v. Bar".toList), none, none⟩

theorem claim_C7_witness :
    icontains dC7.docket_number ['c', 'r'] = false
    ∧ icontains dC7.case_name ("sealed".toList) = false
    ∧ icontains dC7.case_name ("suppressed".toList) = false
    ∧ icontains dC7.case_name ("search warrant".toList) = false :=
  claim_C7 [dC7] rowC7 dC7 (by decide)

/-- C8: because `add_arguments` declares no court option at all, the read of
    `options["court_id"]` makes every `merge_and_create` invocation raise
    `KeyError("court_id")` before a single record is streamed. -/
theorem claim_C8 (rf : Str → Str → ℚ) (harmonize : Str → Str)
    (dockets : List Docket) (idb_all : List FjcIdbRow) (o : ParsedOptions) :
    join_fjc_with_dockets rf harmonize dockets idb_all o
      = Except.error ("court_id".toList) := rfl

/-- C9: during an `update_case_ids` run, a fresh authenticated session is
    created and logged in at a processed item exactly when its stream
    position is a multiple of 5000 — a proactive schedule that depends only
    on the position, never on an observed failure. -/
theorem claim_C9 (dockets : List Docket) (offset limit : ℕ) (e : UpdateEvent)
    (he : e ∈ update_any_missing_pacer_case_ids dockets offset limit) :
    e.reauth = true ↔ e.pos % 5000 = 0 :=
  updateLoop_reauth offset limit _ 0 e he

/-- Concrete store for the C9 witness. -/
def docketsC9 : List Docket := [⟨1, [], [], [], [], some 5, none⟩]

theorem claim_C9_witness :
    (⟨0, true, 1⟩ : UpdateEvent).reauth = true
      ↔ (⟨0, true, 1⟩ : UpdateEvent).pos % 5000 = 0 :=
  claim_C9 docketsC9 0 0 ⟨0, true, 1⟩ (by decide)

/-- C10: any task string other than the two supported selectors makes
    `Command.handle` fall through both branches: it returns normally, with
    no record processed, no job dispatched and no error signalled. -/
theorem claim_C10 (rf : Str → Str → ℚ) (harmonize : Str → Str)
    (dockets : List Docket) (idb_all : List FjcIdbRow) (o : ParsedOptions)
    (h1 : o.task ≠ ("merge_and_create".toList))
    (h2 : o.task ≠ ("update_case_ids".toList)) :
    handle rf harmonize dockets idb_all o = Except.ok RunOutcome.noOp := by
  simp only [handle]
  rw [if_neg (by simpa using h1), if_neg (by simpa using h2)]

theorem claim_C10_witness :
    handle (fun _ _ => (0 : ℚ)) id [] [] ⟨[], 0, 0, ("bogus".toList)⟩
      = Except.ok RunOutcome.noOp :=
  claim_C10 (fun _ _ => (0 : ℚ)) id [] [] ⟨[], 0, 0, ("bogus".toList)⟩
    (by decide) (by decide)
